import Mathlib

/-!
Shallow embedding of the training orchestration layer of
`official/vision/detection/tools/train.py`: the learning-rate schedule
(`adjust_learning_rate` plus the per-epoch assignment in `worker`), the
process bootstrap in `main`, the per-epoch step loop of `train_one_epoch`
modelled as an event trace, and the aspect-ratio bucketing of
`build_sampler`.  Real-valued quantities are modelled over ℚ.
-/

namespace Train

/-! Python's `bisect.bisect_right(a, x)`: binary search returning the
rightmost insertion point.  Translated from the CPython implementation:
`while lo < hi: mid = (lo+hi)//2; if x < a[mid]: hi = mid else: lo = mid+1`. -/

def bisectRightAux {α : Type} [LinearOrder α] [Inhabited α]
    (a : List α) (x : α) (lo hi : ℕ) : ℕ :=
  if h : lo < hi then
    if x < a.getD ((lo + hi) / 2) default then
      bisectRightAux a x lo ((lo + hi) / 2)
    else
      bisectRightAux a x ((lo + hi) / 2 + 1) hi
  else lo
termination_by hi - lo
decreasing_by
  all_goals omega

def bisect_right {α : Type} [LinearOrder α] [Inhabited α] (a : List α) (x : α) : ℕ :=
  bisectRightAux a x 0 a.length

/-! Correctness of the binary search on a list sorted by `≤`: it returns
the number of elements that are `≤ x`. -/

lemma countP_eq_zero_of_forall_le {α : Type} [LinearOrder α] {b x : α} {t : List α}
    (hb : ∀ y ∈ t, b ≤ y) (hbx : ¬ b ≤ x) :
    t.countP (fun y => decide (y ≤ x)) = 0 := by
  rw [List.countP_eq_zero]
  intro y hy
  simp only [decide_eq_true_eq]
  intro hyx
  exact hbx (le_trans (hb y hy) hyx)

lemma getD_le_of_lt_countP {α : Type} [LinearOrder α] [Inhabited α] {x : α} :
    ∀ {a : List α}, a.Sorted (· ≤ ·) →
      ∀ {i : ℕ}, i < a.countP (fun y => decide (y ≤ x)) →
      a.getD i default ≤ x := by
  intro a
  induction a with
  | nil => intro _ i hi; simp at hi
  | cons b t ih =>
    intro hs i hi
    rw [List.sorted_cons] at hs
    obtain ⟨hb, ht⟩ := hs
    by_cases hbx : b ≤ x
    · cases i with
      | zero => simpa using hbx
      | succ j =>
        rw [List.countP_cons_of_pos _ t (by simpa using hbx)] at hi
        simp only [List.getD_cons_succ]
        exact ih ht (by omega)
    · rw [List.countP_cons_of_neg _ t (by simpa using hbx),
        countP_eq_zero_of_forall_le hb hbx] at hi
      omega

lemma lt_getD_of_countP_le {α : Type} [LinearOrder α] [Inhabited α] {x : α} :
    ∀ {a : List α}, a.Sorted (· ≤ ·) →
      ∀ {i : ℕ}, a.countP (fun y => decide (y ≤ x)) ≤ i → i < a.length →
      x < a.getD i default := by
  intro a
  induction a with
  | nil => intro _ i _ hl; simp at hl
  | cons b t ih =>
    intro hs i hc hl
    rw [List.sorted_cons] at hs
    obtain ⟨hb, ht⟩ := hs
    by_cases hbx : b ≤ x
    · rw [List.countP_cons_of_pos _ t (by simpa using hbx)] at hc
      cases i with
      | zero => omega
      | succ j =>
        simp only [List.getD_cons_succ]
        exact ih ht (by omega) (by simpa using hl)
    · cases i with
      | zero => simpa using lt_of_not_le hbx
      | succ j =>
        simp only [List.getD_cons_succ]
        have ht0 := countP_eq_zero_of_forall_le hb hbx (x := x)
        exact ih ht (by omega) (by simpa using hl)

lemma bisectRightAux_sorted {α : Type} [LinearOrder α] [Inhabited α]
    {a : List α} {x : α} (hs : a.Sorted (· ≤ ·)) :
    ∀ n lo hi, hi - lo ≤ n →
      lo ≤ a.countP (fun y => decide (y ≤ x)) →
      a.countP (fun y => decide (y ≤ x)) ≤ hi → hi ≤ a.length →
      bisectRightAux a x lo hi = a.countP (fun y => decide (y ≤ x)) := by
  intro n
  induction n with
  | zero =>
    intro lo hi hf hlo hhi _
    rw [bisectRightAux]
    rw [dif_neg (by omega)]
    omega
  | succ n ih =>
    intro lo hi hf hlo hhi hlen
    rw [bisectRightAux]
    by_cases h : lo < hi
    · rw [dif_pos h]
      by_cases hx : x < a.getD ((lo + hi) / 2) default
      · rw [if_pos hx]
        have hcm : a.countP (fun y => decide (y ≤ x)) ≤ (lo + hi) / 2 := by
          by_contra hcon
          exact absurd (getD_le_of_lt_countP hs (by omega)) (not_le_of_lt hx)
        exact ih lo ((lo + hi) / 2) (by omega) hlo hcm (by omega)
      · rw [if_neg hx]
        have hcm : (lo + hi) / 2 < a.countP (fun y => decide (y ≤ x)) := by
          by_contra hcon
          exact hx (lt_getD_of_countP_le hs (by omega) (by omega))
        exact ih ((lo + hi) / 2 + 1) hi (by omega) (by omega) hhi hlen
    · rw [dif_neg h]
      omega

theorem bisect_right_sorted_eq_countP {α : Type} [LinearOrder α] [Inhabited α]
    {a : List α} {x : α} (hs : a.Sorted (· ≤ ·)) :
    bisect_right a x = a.countP (fun y => decide (y ≤ x)) :=
  bisectRightAux_sorted hs a.length 0 a.length (by omega) (Nat.zero_le _)
    (List.countP_le_length _) le_rfl

/-! Configuration record (`model.cfg` fields read by the training loop)
and the optimizer's parameter groups. -/

structure Cfg where
  basic_lr : ℚ
  momentum : ℚ
  weight_decay : ℚ
  lr_decay_rate : ℚ
  lr_decay_stages : List ℕ
  warm_iters : ℕ
  max_epoch : ℕ
  nr_images_epoch : ℕ
  log_interval : ℕ
  num_losses : ℕ
deriving DecidableEq

structure ParamGroup where
  lr : ℚ
  momentum : ℚ
  weight_decay : ℚ
deriving DecidableEq

structure Optimizer where
  param_groups : List ParamGroup
deriving DecidableEq

/-- Decayed base rate
`model.cfg.basic_lr * world_size * model.batch_size * lr_decay_rate ** bisect.bisect_right(lr_decay_stages, epoch_id)`,
as computed both in `worker`'s per-epoch assignment and inside
`adjust_learning_rate`. -/
def epochBaseLR (cfg : Cfg) (world_size batch_size : ℕ) (epoch_id : ℕ) : ℚ :=
  cfg.basic_lr * (world_size : ℚ) * (batch_size : ℚ) *
    cfg.lr_decay_rate ^ bisect_right cfg.lr_decay_stages epoch_id

/-- The per-epoch assignment at the top of `worker`'s epoch loop:
`for param_group in opt.param_groups: param_group["lr"] = ...`. -/
def setEpochLR (opt : Optimizer) (cfg : Cfg) (world_size batch_size epoch_id : ℕ) :
    Optimizer :=
  { opt with param_groups := opt.param_groups.map fun g =>
      { g with lr := epochBaseLR cfg world_size batch_size epoch_id } }

/-- `adjust_learning_rate(optimizer, epoch_id, step, model, world_size)`:
during warmup (`epoch_id == 0 and step < cfg.warm_iters`) every parameter
group's rate is overwritten with `base_lr * (step + 1.0) / warm_iters`;
otherwise the optimizer is left untouched. -/
def adjust_learning_rate (opt : Optimizer) (cfg : Cfg)
    (world_size batch_size epoch_id step : ℕ) : Optimizer :=
  if epoch_id = 0 ∧ step < cfg.warm_iters then
    { opt with param_groups := opt.param_groups.map fun g =>
        { g with lr := epochBaseLR cfg world_size batch_size epoch_id *
            (((step : ℚ) + 1) / (cfg.warm_iters : ℚ)) } }
  else opt

/-- Warmup rate `base_lr * lr_factor` with `lr_factor = (step + 1.0) / warm_iters`. -/
def warmupLR (cfg : Cfg) (world_size batch_size step : ℕ) : ℚ :=
  epochBaseLR cfg world_size batch_size 0 * (((step : ℚ) + 1) / (cfg.warm_iters : ℚ))

/-- Optimizer state in effect while step `step` of epoch `epoch_id` runs:
the epoch starts from `opt0` with the per-epoch assignment, and
`adjust_learning_rate` runs at the top of every step of `train_one_epoch`. -/
def optDuringStep (opt0 : Optimizer) (cfg : Cfg)
    (world_size batch_size epoch_id : ℕ) : ℕ → Optimizer
  | 0 => adjust_learning_rate (setEpochLR opt0 cfg world_size batch_size epoch_id)
      cfg world_size batch_size epoch_id 0
  | s + 1 => adjust_learning_rate
      (optDuringStep opt0 cfg world_size batch_size epoch_id s)
      cfg world_size batch_size epoch_id (s + 1)

lemma map_lr_map_set (l : List ParamGroup) (v : ℚ) :
    (l.map fun g => { g with lr := v }).map ParamGroup.lr
      = List.replicate l.length v := by
  induction l with
  | nil => rfl
  | cons g t ih => simp [List.replicate, ih]

lemma optDuringStep_no_warmup (opt0 : Optimizer) (cfg : Cfg)
    (ws bs epoch_id : ℕ) (h : ∀ s, ¬(epoch_id = 0 ∧ s < cfg.warm_iters)) :
    ∀ step, optDuringStep opt0 cfg ws bs epoch_id step
      = setEpochLR opt0 cfg ws bs epoch_id := by
  intro step
  induction step with
  | zero => rw [optDuringStep, adjust_learning_rate, if_neg (h 0)]
  | succ s ih => rw [optDuringStep, ih, adjust_learning_rate, if_neg (h (s + 1))]

lemma optDuringStep_epoch0_lr (opt0 : Optimizer) (cfg : Cfg) (ws bs : ℕ)
    (hw : 0 < cfg.warm_iters) :
    ∀ step, (optDuringStep opt0 cfg ws bs 0 step).param_groups.map ParamGroup.lr
      = List.replicate opt0.param_groups.length
          (if step < cfg.warm_iters then warmupLR cfg ws bs step
           else epochBaseLR cfg ws bs 0) := by
  have hwq : (cfg.warm_iters : ℚ) ≠ 0 := Nat.cast_ne_zero.mpr (by omega)
  intro step
  induction step with
  | zero =>
    rw [optDuringStep, adjust_learning_rate, if_pos ⟨rfl, hw⟩, if_pos hw]
    simp only [setEpochLR]
    rw [map_lr_map_set, List.length_map]
    rfl
  | succ s ih =>
    have hlen : (optDuringStep opt0 cfg ws bs 0 s).param_groups.length
        = opt0.param_groups.length := by
      have := congrArg List.length ih
      simpa using this
    by_cases hs : s + 1 < cfg.warm_iters
    · rw [optDuringStep, adjust_learning_rate, if_pos ⟨rfl, hs⟩]
      simp only []
      rw [map_lr_map_set, hlen, if_pos hs]
      rfl
    · rw [optDuringStep, adjust_learning_rate,
        if_neg (by push_neg; intro _; omega), ih, if_neg hs]
      by_cases hslt : s < cfg.warm_iters
      · have hse : s + 1 = cfg.warm_iters := by omega
        rw [if_pos hslt]
        have : warmupLR cfg ws bs s = epochBaseLR cfg ws bs 0 := by
          unfold warmupLR
          have hcast : (s : ℚ) + 1 = (cfg.warm_iters : ℚ) := by
            rw [← hse]; push_cast; ring
          rw [hcast, div_self hwq, mul_one]
        rw [this]
      · rw [if_neg hslt]

/-- Claim C1: for every epoch and step with `epoch > 0` or
`step ≥ cfg.warm_iters`, the learning rate in effect on every optimizer
parameter group during that step equals
`basic_lr * world_size * batch_size * lr_decay_rate ^ k`, where `k` is the
number of decay stages `≤ epoch` (ties count as passed); the value is
independent of `step` within a fixed epoch, the right-hand side not
mentioning `step`. -/
theorem lr_decay_schedule_correct (opt0 : Optimizer) (cfg : Cfg)
    (ws bs epoch_id step : ℕ)
    (hsorted : cfg.lr_decay_stages.Sorted (· ≤ ·))
    (hcase : 0 < epoch_id ∨ cfg.warm_iters ≤ step) :
    (optDuringStep opt0 cfg ws bs epoch_id step).param_groups.map ParamGroup.lr
      = List.replicate opt0.param_groups.length
          (cfg.basic_lr * (ws : ℚ) * (bs : ℚ) *
            cfg.lr_decay_rate ^
              cfg.lr_decay_stages.countP (fun t => decide (t ≤ epoch_id))) := by
  have hbase : epochBaseLR cfg ws bs epoch_id
      = cfg.basic_lr * (ws : ℚ) * (bs : ℚ) *
          cfg.lr_decay_rate ^
            cfg.lr_decay_stages.countP (fun t => decide (t ≤ epoch_id)) := by
    unfold epochBaseLR
    rw [bisect_right_sorted_eq_countP hsorted]
  rcases hcase with hpos | hwle
  · rw [optDuringStep_no_warmup opt0 cfg ws bs epoch_id
      (fun s => by push_neg; intro he; omega) step]
    simp only [setEpochLR]
    rw [map_lr_map_set, hbase]
  · rcases Nat.eq_zero_or_pos epoch_id with he | hpos
    · subst he
      rcases Nat.eq_zero_or_pos cfg.warm_iters with hw0 | hw
      · rw [optDuringStep_no_warmup opt0 cfg ws bs 0
          (fun s => by push_neg; intro _; omega) step]
        simp only [setEpochLR]
        rw [map_lr_map_set, hbase]
      · rw [optDuringStep_epoch0_lr opt0 cfg ws bs hw step,
          if_neg (by omega), hbase]
    · rw [optDuringStep_no_warmup opt0 cfg ws bs epoch_id
        (fun s => by push_neg; intro he; omega) step]
      simp only [setEpochLR]
      rw [map_lr_map_set, hbase]

/-- Scenario B of the spec: `lr_decay_stages = [3, 6]`,
`lr_decay_rate = 0.1`, `basic_lr = 0.01`, `world_size = batch_size = 1`,
`warm_iters = 0`. -/
def cfgB : Cfg :=
  { basic_lr := 1 / 100
    momentum := 9 / 10
    weight_decay := 1 / 10000
    lr_decay_rate := 1 / 10
    lr_decay_stages := [3, 6]
    warm_iters := 0
    max_epoch := 10
    nr_images_epoch := 10
    log_interval := 20
    num_losses := 2 }

/-- One parameter group, rate still unset. -/
def optB : Optimizer := { param_groups := [{ lr := 0, momentum := 9 / 10, weight_decay := 1 / 10000 }] }

/-- Witness for claim C1, instantiating scenario B: the rate is `0.01` at
epoch 2, `0.001` at epoch 3 and `0.0001` at epoch 7. -/
theorem lr_decay_schedule_correct_witness :
    ((optDuringStep optB cfgB 1 1 2 0).param_groups.map ParamGroup.lr = [1 / 100])
    ∧ ((optDuringStep optB cfgB 1 1 3 0).param_groups.map ParamGroup.lr = [1 / 1000])
    ∧ ((optDuringStep optB cfgB 1 1 7 0).param_groups.map ParamGroup.lr = [1 / 10000]) := by
  refine ⟨?_, ?_, ?_⟩
  · rw [lr_decay_schedule_correct optB cfgB 1 1 2 0 (by decide) (Or.inl (by omega))]
    norm_num [cfgB, optB, List.replicate]
  · rw [lr_decay_schedule_correct optB cfgB 1 1 3 0 (by decide) (Or.inl (by omega))]
    norm_num [cfgB, optB, List.replicate]
  · rw [lr_decay_schedule_correct optB cfgB 1 1 7 0 (by decide) (Or.inl (by omega))]
    norm_num [cfgB, optB, List.replicate]

/-- Claim C2: during warmup (`epoch == 0`, `step < warm_iters > 0`) every
parameter group's rate equals the decayed epoch-0 base rate times
`(step + 1) / warm_iters`; that value is strictly increasing in `step` and
reaches the full epoch-0 rate exactly at `step = warm_iters - 1` and at no
earlier step. -/
theorem lr_warmup_ramp_correct (opt0 : Optimizer) (cfg : Cfg) (ws bs : ℕ)
    (hw : 0 < cfg.warm_iters) (hpos : 0 < epochBaseLR cfg ws bs 0) :
    (∀ step, step < cfg.warm_iters →
      (optDuringStep opt0 cfg ws bs 0 step).param_groups.map ParamGroup.lr
        = List.replicate opt0.param_groups.length (warmupLR cfg ws bs step))
    ∧ (∀ s t, s < t → t < cfg.warm_iters →
        warmupLR cfg ws bs s < warmupLR cfg ws bs t)
    ∧ warmupLR cfg ws bs (cfg.warm_iters - 1) = epochBaseLR cfg ws bs 0
    ∧ (∀ s, s < cfg.warm_iters - 1 →
        warmupLR cfg ws bs s ≠ epochBaseLR cfg ws bs 0) := by
  have hwq : (cfg.warm_iters : ℚ) ≠ 0 := Nat.cast_ne_zero.mpr (by omega)
  have hwqpos : (0 : ℚ) < (cfg.warm_iters : ℚ) := by
    exact_mod_cast hw
  refine ⟨?_, ?_, ?_, ?_⟩
  · intro step hstep
    rw [optDuringStep_epoch0_lr opt0 cfg ws bs hw step, if_pos hstep]
  · intro s t hst _
    unfold warmupLR
    rw [mul_lt_mul_left hpos, div_lt_div_iff_of_pos_right hwqpos]
    have : (s : ℚ) < (t : ℚ) := by exact_mod_cast hst
    linarith
  · unfold warmupLR
    have hcast : ((cfg.warm_iters - 1 : ℕ) : ℚ) + 1 = (cfg.warm_iters : ℚ) := by
      have : cfg.warm_iters - 1 + 1 = cfg.warm_iters := by omega
      exact_mod_cast congrArg (Nat.cast : ℕ → ℚ) this
    rw [hcast, div_self hwq, mul_one]
  · intro s hs
    unfold warmupLR
    intro heq
    have h1 : ((s : ℚ) + 1) / (cfg.warm_iters : ℚ) = 1 := by
      have hb := mul_left_cancel₀ (ne_of_gt hpos) (heq.trans (mul_one _).symm)
      exact hb
    have h2 : (s : ℚ) + 1 = (cfg.warm_iters : ℚ) := by
      field_simp at h1
      linarith
    have h3 : s + 1 = cfg.warm_iters := by exact_mod_cast h2
    omega

/-- Warmup scenario used in the witness of claim C2: three warmup steps,
stages as in scenario B. -/
def cfgW : Cfg :=
  { basic_lr := 1 / 100
    momentum := 9 / 10
    weight_decay := 1 / 10000
    lr_decay_rate := 1 / 10
    lr_decay_stages := [3, 6]
    warm_iters := 3
    max_epoch := 10
    nr_images_epoch := 10
    log_interval := 20
    num_losses := 2 }

lemma cfgW_base : epochBaseLR cfgW 1 1 0 = 1 / 100 := by
  have hb : bisect_right cfgW.lr_decay_stages 0 = 0 := by
    rw [bisect_right_sorted_eq_countP (by decide)]
    decide
  rw [epochBaseLR, hb]
  norm_num [cfgW]

/-- Witness for claim C2: in the warmup scenario the rate during step 0 is
`0.01 / 3`, it grows strictly from step 0 to step 1, it reaches `0.01`
exactly at step 2, and it differs from `0.01` at step 0. -/
theorem lr_warmup_ramp_correct_witness :
    ((optDuringStep optB cfgW 1 1 0 0).param_groups.map ParamGroup.lr = [1 / 300])
    ∧ warmupLR cfgW 1 1 0 < warmupLR cfgW 1 1 1
    ∧ warmupLR cfgW 1 1 2 = epochBaseLR cfgW 1 1 0
    ∧ warmupLR cfgW 1 1 0 ≠ epochBaseLR cfgW 1 1 0 := by
  have h := lr_warmup_ramp_correct optB cfgW 1 1 (by decide)
    (by rw [cfgW_base]; norm_num)
  refine ⟨?_, ?_, ?_, ?_⟩
  · rw [h.1 0 (by decide)]
    rw [warmupLR, cfgW_base]
    norm_num [cfgW, optB, List.replicate_succ]
  · exact h.2.1 0 1 (by omega) (by decide)
  · exact h.2.2.1
  · exact h.2.2.2 0 (by decide)

/-- Claim C9: whenever `epoch_id ≠ 0` or `step ≥ warm_iters`,
`adjust_learning_rate` returns the optimizer completely unchanged (every
parameter group's rate and all other state); with `warm_iters = 0` the
warmup branch is never taken for any `(epoch_id, step)`. -/
theorem adjust_lr_frame (opt : Optimizer) (cfg : Cfg) (ws bs : ℕ) :
    (∀ epoch_id step, (epoch_id ≠ 0 ∨ cfg.warm_iters ≤ step) →
      adjust_learning_rate opt cfg ws bs epoch_id step = opt)
    ∧ (cfg.warm_iters = 0 → ∀ epoch_id step,
      adjust_learning_rate opt cfg ws bs epoch_id step = opt) := by
  constructor
  · intro epoch_id step hcase
    rw [adjust_learning_rate, if_neg]
    rintro ⟨he, hstep⟩
    rcases hcase with h | h
    · exact h he
    · omega
  · intro hw0 epoch_id step
    rw [adjust_learning_rate, if_neg]
    rintro ⟨_, hstep⟩
    omega

/-- Witness for claim C9: at epoch 1 (scenario B config) and at epoch 0
with `warm_iters = 0`, the optimizer passes through unchanged. -/
theorem adjust_lr_frame_witness :
    adjust_learning_rate optB cfgW 1 1 1 0 = optB
    ∧ adjust_learning_rate optB cfgB 1 1 0 5 = optB := by
  constructor
  · exact (adjust_lr_frame optB cfgW 1 1).1 1 0 (Or.inl (by omega))
  · exact (adjust_lr_frame optB cfgB 1 1).2 (by decide) 0 5

/-! The process bootstrap of `main` and the group join of `worker`. -/

/-- World-size computation in `main`: `ngpus == -1` takes every available
device; a request above availability is `sys.exit(1)` (`none`); otherwise
the request is used as is. -/
def computeWorldSize (ngpus : ℤ) (valid_nr_dev : ℕ) : Option ℤ :=
  if ngpus = -1 then some (valid_nr_dev : ℤ)
  else if (valid_nr_dev : ℤ) < ngpus then none
  else some ngpus

inductive BootstrapResult where
  | exitWith : ℕ → BootstrapResult
  | inProcess : ℕ → ℤ → BootstrapResult
  | spawned : List (ℕ × ℤ) → BootstrapResult
deriving DecidableEq

/-- Spawn phase of `main`: with `world_size > 1` one process per rank
`i in range(world_size)` is started with arguments `(i, world_size)`;
otherwise `worker(0, 1, args)` runs in-process. -/
def spawnPlan (world_size : ℤ) : BootstrapResult :=
  if 1 < world_size then
    BootstrapResult.spawned
      ((List.range world_size.toNat).map fun i => (i, world_size))
  else BootstrapResult.inProcess 0 1

/-- `main` modelled end to end: the device check, then the spawn phase. -/
def mainBootstrap (ngpus : ℤ) (valid_nr_dev : ℕ) : BootstrapResult :=
  match computeWorldSize ngpus valid_nr_dev with
  | none => BootstrapResult.exitWith 1
  | some ws => spawnPlan ws

def spawnedWorkers : BootstrapResult → List (ℕ × ℤ)
  | BootstrapResult.spawned ws => ws
  | _ => []

structure GroupJoin where
  master_ip : String
  master_port : ℕ
  world_size : ℤ
  rank : ℕ
  dev : ℕ
deriving DecidableEq

/-- `worker`'s group initialization: `dist.init_process_group` is called
exactly when `world_size > 1`, with the fixed rendezvous
`localhost:23456` and the worker's own rank as both `rank` and `dev`. -/
def workerGroupJoin (rank : ℕ) (world_size : ℤ) : Option GroupJoin :=
  if 1 < world_size then
    some { master_ip := "localhost", master_port := 23456,
           world_size := world_size, rank := rank, dev := rank }
  else none

/-- Claim C3: a request above availability exits with code 1 and spawns
no worker, and `ngpus = -1` sets the world size to the number of
available devices. -/
theorem bootstrap_fail_fast (ngpus : ℤ) (valid_nr_dev : ℕ) :
    ((valid_nr_dev : ℤ) < ngpus →
      mainBootstrap ngpus valid_nr_dev = BootstrapResult.exitWith 1
      ∧ spawnedWorkers (mainBootstrap ngpus valid_nr_dev) = [])
    ∧ computeWorldSize (-1) valid_nr_dev = some (valid_nr_dev : ℤ) := by
  constructor
  · intro hgt
    have hne : ngpus ≠ -1 := by omega
    have : computeWorldSize ngpus valid_nr_dev = none := by
      rw [computeWorldSize, if_neg hne, if_pos hgt]
    rw [mainBootstrap, this]
    exact ⟨rfl, rfl⟩
  · rw [computeWorldSize, if_pos rfl]

/-- Witness for claim C3, scenario C of the spec: `ngpus = 8` with 4
available devices exits with code 1 and spawns zero workers; `ngpus = -1`
with 4 devices gives world size 4. -/
theorem bootstrap_fail_fast_witness :
    mainBootstrap 8 4 = BootstrapResult.exitWith 1
    ∧ spawnedWorkers (mainBootstrap 8 4) = []
    ∧ computeWorldSize (-1) 4 = some 4 := by
  have h := bootstrap_fail_fast 8 4
  exact ⟨(h.1 (by omega)).1, (h.1 (by omega)).2, h.2⟩

/-- Claim C7: with `world_size = 1` the driver runs in-process as rank 0
and no process group is initialized; with `world_size > 1` exactly
`world_size` workers are spawned, one per rank `0 .. world_size - 1`,
each carrying its rank together with the shared world size, and each
joins the group at `localhost:23456` with its rank as both group identity
and device index. -/
theorem topology_spawn_and_group_join (world_size : ℤ) :
    (world_size = 1 →
      spawnPlan world_size = BootstrapResult.inProcess 0 1
      ∧ workerGroupJoin 0 world_size = none)
    ∧ (1 < world_size →
      spawnPlan world_size = BootstrapResult.spawned
        ((List.range world_size.toNat).map fun i => (i, world_size))
      ∧ (spawnedWorkers (spawnPlan world_size)).length = world_size.toNat
      ∧ ∀ i, i < world_size.toNat →
          workerGroupJoin i world_size
            = some { master_ip := "localhost", master_port := 23456,
                     world_size := world_size, rank := i, dev := i }) := by
  constructor
  · intro h1
    subst h1
    exact ⟨rfl, rfl⟩
  · intro hgt
    refine ⟨by rw [spawnPlan, if_pos hgt], ?_, ?_⟩
    · rw [spawnPlan, if_pos hgt, spawnedWorkers]
      rw [List.length_map, List.length_range]
    · intro i _
      rw [workerGroupJoin, if_pos hgt]

/-- Witness for claim C7: world size 1 runs in-process with no group
join; world size 2 spawns ranks 0 and 1, both joining at
`localhost:23456`. -/
theorem topology_spawn_and_group_join_witness :
    spawnPlan 1 = BootstrapResult.inProcess 0 1
    ∧ workerGroupJoin 0 1 = none
    ∧ spawnPlan 2 = BootstrapResult.spawned [(0, 2), (1, 2)]
    ∧ workerGroupJoin 1 2
        = some { master_ip := "localhost", master_port := 23456,
                 world_size := 2, rank := 1, dev := 1 } := by
  have h1 := (topology_spawn_and_group_join 1).1 rfl
  have h2 := (topology_spawn_and_group_join 2).2 (by omega)
  refine ⟨h1.1, h1.2, ?_, h2.2.2 1 (by omega)⟩
  rw [h2.1]
  rfl

/-! Event-trace model of `train_one_epoch` and of `worker`'s epoch loop.
Wall-clock values and loss tensors are opaque, so an event records that a
call happened (and with which step or epoch index), not its payload. -/

inductive Event where
  | adjustLR : ℕ → ℕ → Event
  | optStep : ℕ → Event
  | timeUpdate : ℕ → Event
  | lossUpdate : ℕ → Event
  | logEmit : ℕ → Event
  | checkpoint : ℕ → String → Event
deriving DecidableEq

def isOptStep : Event → Bool
  | Event.optStep _ => true
  | _ => false

def isLossUpdate : Event → Bool
  | Event.lossUpdate _ => true
  | _ => false

def isCheckpoint : Event → Bool
  | Event.checkpoint _ _ => true
  | _ => false

/-- Events of one iteration of the `for step in range(tot_steps)` body of
`train_one_epoch`, in source order: `adjust_learning_rate`, the
`opt.zero_grad / propagate / opt.step` cycle, `time_meter.update`, then —
on rank 0 only — `meter.update` and, every `log_interval` steps, the log
emission. -/
def stepEvents (rank log_interval epoch_id step : ℕ) : List Event :=
  [Event.adjustLR epoch_id step, Event.optStep step, Event.timeUpdate step]
  ++ (if rank = 0 then
        [Event.lossUpdate step]
        ++ (if step % log_interval = 0 then [Event.logEmit step] else [])
      else [])

/-- `for i in range(n)` over a list-producing body, in iteration order. -/
def forRange {β : Type} (f : ℕ → List β) : ℕ → List β
  | 0 => []
  | n + 1 => forRange f n ++ f n

/-- `tot_steps = model.cfg.nr_images_epoch // (model.batch_size * world_size)`. -/
def tot_steps (cfg : Cfg) (batch_size world_size : ℕ) : ℕ :=
  cfg.nr_images_epoch / (batch_size * world_size)

/-- All step events of one `train_one_epoch` call on a given rank. -/
def epochStepEvents (cfg : Cfg) (batch_size world_size rank epoch_id : ℕ) :
    List Event :=
  forRange (stepEvents rank cfg.log_interval epoch_id)
    (tot_steps cfg batch_size world_size)

/-- Checkpoint path `"log-of-{}/epoch_{}.pkl".format(base, epoch_id)`. -/
def ckptPath (base : String) (epoch_id : ℕ) : String :=
  "log-of-" ++ base ++ "/epoch_" ++ toString epoch_id ++ ".pkl"

/-- One epoch of `worker`: the step loop, then — on rank 0 only — the
`mge.save({"epoch": epoch_id, "state_dict": ...}, save_path)` call,
recorded with the epoch index stored in the checkpoint record and the
file path. -/
def epochTrace (cfg : Cfg) (batch_size world_size rank : ℕ) (base : String)
    (epoch_id : ℕ) : List Event :=
  epochStepEvents cfg batch_size world_size rank epoch_id
  ++ (if rank = 0 then [Event.checkpoint epoch_id (ckptPath base epoch_id)] else [])

/-- The whole epoch loop `for epoch_id in range(model.cfg.max_epoch)`. -/
def workerTrace (cfg : Cfg) (batch_size world_size rank : ℕ) (base : String) :
    List Event :=
  forRange (epochTrace cfg batch_size world_size rank base) cfg.max_epoch

lemma countP_forRange {β : Type} (f : ℕ → List β) (p : β → Bool) (k : ℕ)
    (n : ℕ) (h : ∀ i, i < n → (f i).countP p = k) :
    (forRange f n).countP p = k * n := by
  induction n with
  | zero => rfl
  | succ m ih =>
    rw [forRange, List.countP_append, ih (fun i hi => h i (by omega)),
      h m (by omega)]
    ring

lemma mem_forRange {β : Type} (f : ℕ → List β) (b : β) (i n : ℕ)
    (hi : i < n) (hb : b ∈ f i) : b ∈ forRange f n := by
  induction n with
  | zero => omega
  | succ m ih =>
    rw [forRange, List.mem_append]
    rcases Nat.lt_or_ge i m with h | h
    · exact Or.inl (ih h)
    · have : i = m := by omega
      subst this
      exact Or.inr hb

lemma countP_optStep_stepEvents (rank li e s : ℕ) :
    (stepEvents rank li e s).countP isOptStep = 1 := by
  rw [stepEvents]
  by_cases hr : rank = 0 <;> by_cases hl : s % li = 0 <;>
    simp [hr, hl, isOptStep]

lemma countP_ckpt_stepEvents (rank li e s : ℕ) :
    (stepEvents rank li e s).countP isCheckpoint = 0 := by
  rw [stepEvents]
  by_cases hr : rank = 0 <;> by_cases hl : s % li = 0 <;>
    simp [hr, hl, isCheckpoint]

/-- Scenario A of the spec: `nr_images_epoch = 10`, `max_epoch = 1`. -/
def cfgA : Cfg :=
  { basic_lr := 1 / 100
    momentum := 9 / 10
    weight_decay := 1 / 10000
    lr_decay_rate := 1 / 10
    lr_decay_stages := [3, 6]
    warm_iters := 0
    max_epoch := 1
    nr_images_epoch := 10
    log_interval := 20
    num_losses := 2 }

/-- Claim C4: on every rank, every epoch executes exactly
`tot_steps = nr_images_epoch // (batch_size * world_size)` optimization
steps — a count that does not depend on the rank — and in scenario A
(`world_size = 1`, `batch_size = 2`, `nr_images_epoch = 10`,
`max_epoch = 1`) the whole driver executes exactly 5 steps. -/
theorem epoch_step_count (cfg : Cfg) (batch_size world_size rank epoch_id : ℕ) :
    (epochStepEvents cfg batch_size world_size rank epoch_id).countP isOptStep
      = tot_steps cfg batch_size world_size
    ∧ tot_steps cfg batch_size world_size
      = cfg.nr_images_epoch / (batch_size * world_size)
    ∧ (workerTrace cfgA 2 1 0 "net").countP isOptStep = 5 := by
  refine ⟨?_, rfl, ?_⟩
  · rw [epochStepEvents,
      countP_forRange _ _ 1 _ (fun i _ => countP_optStep_stepEvents _ _ _ _),
      one_mul]
  · rw [workerTrace]
    have h1 : cfgA.max_epoch = 1 := rfl
    rw [h1, forRange, forRange, List.nil_append, epochTrace,
      List.countP_append, epochStepEvents,
      countP_forRange _ _ 1 _ (fun i _ => countP_optStep_stepEvents _ _ _ _),
      one_mul]
    have h2 : tot_steps cfgA 2 1 = 5 := rfl
    rw [h2]
    simp [isOptStep]

lemma countP_ckpt_epochStepEvents (cfg : Cfg) (bs ws rank e : ℕ) :
    (epochStepEvents cfg bs ws rank e).countP isCheckpoint = 0 := by
  rw [epochStepEvents,
    countP_forRange _ _ 0 _ (fun i _ => countP_ckpt_stepEvents _ _ _ _),
    Nat.zero_mul]

/-- Claim C5: every epoch of the run ends, on rank 0 only, with exactly one
checkpoint event, whose record carries the epoch index and whose path is
`log-of-<base>/epoch_<epoch_id>.pkl`; ranks other than 0 never write one. -/
theorem checkpoint_once_per_epoch_rank0 (cfg : Cfg) (bs ws : ℕ) (base : String) :
    (∀ e, e < cfg.max_epoch →
      epochTrace cfg bs ws 0 base e
        = epochStepEvents cfg bs ws 0 e
          ++ [Event.checkpoint e (ckptPath base e)]
      ∧ (epochTrace cfg bs ws 0 base e).countP isCheckpoint = 1)
    ∧ (workerTrace cfg bs ws 0 base).countP isCheckpoint = cfg.max_epoch
    ∧ (∀ rank, rank ≠ 0 →
      (workerTrace cfg bs ws rank base).countP isCheckpoint = 0) := by
  have hepoch0 : ∀ e, (epochTrace cfg bs ws 0 base e).countP isCheckpoint = 1 := by
    intro e
    rw [epochTrace, if_pos rfl, List.countP_append,
      countP_ckpt_epochStepEvents]
    simp [isCheckpoint]
  refine ⟨?_, ?_, ?_⟩
  · intro e _
    exact ⟨by rw [epochTrace, if_pos rfl], hepoch0 e⟩
  · rw [workerTrace, countP_forRange _ _ 1 _ (fun i _ => hepoch0 i), one_mul]
  · intro rank hrank
    rw [workerTrace, countP_forRange _ _ 0 _ ?_, Nat.zero_mul]
    intro i _
    rw [epochTrace, if_neg hrank, List.append_nil, countP_ckpt_epochStepEvents]

/-- Witness for claim C5 in scenario A: rank 0's single-epoch run writes
exactly one checkpoint, placed at the end of epoch 0 under
`log-of-net/epoch_0.pkl` with record epoch 0, and rank 1 writes none. -/
theorem checkpoint_once_per_epoch_rank0_witness :
    (workerTrace cfgA 2 1 0 "net").countP isCheckpoint = 1
    ∧ (workerTrace cfgA 2 1 1 "net").countP isCheckpoint = 0
    ∧ epochTrace cfgA 2 1 0 "net" 0
        = epochStepEvents cfgA 2 1 0 0
          ++ [Event.checkpoint 0 "log-of-net/epoch_0.pkl"] := by
  have h := checkpoint_once_per_epoch_rank0 cfgA 2 1 "net"
  refine ⟨h.2.1, h.2.2 1 (by omega), ?_⟩
  have hpath : ckptPath "net" 0 = "log-of-net/epoch_0.pkl" := by decide
  have he := (h.1 0 (by decide)).1
  rw [he, hpath]

/-- Claim C8 (amended): at every step of every epoch the two timing
measurements are recorded into the rank-local time meter on every rank,
while the per-loss scalars are recorded into the loss meter at every step
on rank 0 only — a rank other than 0 never records them. -/
theorem step_metric_recording (cfg : Cfg) (bs ws rank e : ℕ) :
    (∀ s, s < tot_steps cfg bs ws →
      Event.timeUpdate s ∈ epochStepEvents cfg bs ws rank e)
    ∧ (∀ s, s < tot_steps cfg bs ws →
      Event.lossUpdate s ∈ epochStepEvents cfg bs ws 0 e)
    ∧ (rank ≠ 0 →
      (epochStepEvents cfg bs ws rank e).countP isLossUpdate = 0) := by
  refine ⟨?_, ?_, ?_⟩
  · intro s hs
    refine mem_forRange _ _ s _ hs ?_
    rw [stepEvents]
    simp
  · intro s hs
    refine mem_forRange _ _ s _ hs ?_
    rw [stepEvents, if_pos rfl]
    simp
  · intro hrank
    rw [epochStepEvents, countP_forRange _ _ 0 _ ?_, Nat.zero_mul]
    intro i _
    rw [stepEvents, if_neg hrank]
    simp [isLossUpdate]

/-- Counterexample to claim C8 as stated: with `nr_images_epoch = 10`,
`batch_size = 1`, `world_size = 2` there are 5 steps per epoch, yet rank 1
records no per-loss scalars at step 0 (nor at any step) — `meter.update`
sits inside `if rank == 0` in `train_one_epoch`. -/
theorem step_metric_recording_cex :
    0 < tot_steps cfgA 1 2
    ∧ Event.lossUpdate 0 ∉ epochStepEvents cfgA 1 2 1 0 := by
  constructor
  · decide
  · decide

/-- Witness for claim C8's amended theorem at rank 1 / rank 0, step 0 of
the two-rank scenario. -/
theorem step_metric_recording_witness :
    Event.timeUpdate 0 ∈ epochStepEvents cfgA 1 2 1 0
    ∧ Event.lossUpdate 0 ∈ epochStepEvents cfgA 1 2 0 0
    ∧ (epochStepEvents cfgA 1 2 1 0).countP isLossUpdate = 0 := by
  have h := step_metric_recording cfgA 1 2 1 0
  exact ⟨h.1 0 (by decide), h.2.1 0 (by decide), h.2.2 (by omega)⟩

/-! Aspect-ratio bucketing of `build_sampler`.  A dataset item is its
`get_img_info` metadata (height, width); the two sampler shapes that
`build_sampler` can return are kept abstract. -/

structure ImgInfo where
  height : ℚ
  width : ℚ
deriving DecidableEq

inductive Sampler where
  | infiniteRandom : ℕ → Bool → Sampler
  | infiniteGrouped : ℕ → List ℕ → Sampler
deriving DecidableEq

/-- `_compute_aspect_ratios`: `info["height"] / info["width"]` per item. -/
def _compute_aspect_ratios (dataset : List ImgInfo) : List ℚ :=
  dataset.map fun info => info.height / info.width

/-- `_quantize(x, bins) = list(map(lambda y: bisect.bisect_right(sorted(bins), y), x))`. -/
def _quantize (x : List ℚ) (bins : List ℚ) : List ℕ :=
  x.map fun y => bisect_right (List.insertionSort (· ≤ ·) bins) y

/-- `build_sampler`: empty `aspect_grouping` degrades to
`Infinite(RandomSampler(..., drop_last=True))`; otherwise the quantized
group ids feed `Infinite(GroupedRandomSampler(...))`.  The Python default
for `aspect_grouping` is `[1]`. -/
def build_sampler (train_dataset : List ImgInfo) (batch_size : ℕ)
    (aspect_grouping : List ℚ) : Sampler :=
  if aspect_grouping.length = 0 then
    Sampler.infiniteRandom batch_size true
  else
    Sampler.infiniteGrouped batch_size
      (_quantize (_compute_aspect_ratios train_dataset) aspect_grouping)

lemma bisect_sorted_bins (bins : List ℚ) (y : ℚ) :
    bisect_right (List.insertionSort (· ≤ ·) bins) y
      = bins.countP fun t => decide (t ≤ y) := by
  rw [bisect_right_sorted_eq_countP (List.sorted_insertionSort _ bins)]
  exact (List.perm_insertionSort _ bins).countP_eq _

/-- Claim C6: every dataset item is assigned the bucket id equal to the
number of `aspect_grouping` thresholds that are `≤` its aspect ratio
`height / width`; the default single threshold `1` yields exactly the two
buckets 0 and 1; and an empty `aspect_grouping` bypasses bucketing,
returning the infinite plain random sampler with `drop_last = true`. -/
theorem build_sampler_bucketing (train_dataset : List ImgInfo)
    (batch_size : ℕ) (aspect_grouping : List ℚ) (hne : aspect_grouping ≠ []) :
    build_sampler train_dataset batch_size aspect_grouping
      = Sampler.infiniteGrouped batch_size
          ((train_dataset.map fun info => info.height / info.width).map
            fun r => aspect_grouping.countP fun t => decide (t ≤ r))
    ∧ (∀ r : ℚ, _quantize [r] [1] = [if 1 ≤ r then 1 else 0])
    ∧ build_sampler train_dataset batch_size []
      = Sampler.infiniteRandom batch_size true := by
  refine ⟨?_, ?_, ?_⟩
  · rw [build_sampler, if_neg (by simpa [List.length_eq_zero] using hne)]
    rw [_quantize, _compute_aspect_ratios]
    have hfun : (fun y => bisect_right (List.insertionSort (· ≤ ·) aspect_grouping) y)
        = fun r => aspect_grouping.countP fun t => decide (t ≤ r) :=
      funext fun y => bisect_sorted_bins aspect_grouping y
    rw [hfun]
  · intro r
    rw [_quantize]
    simp only [List.map_cons, List.map_nil]
    rw [bisect_sorted_bins [1] r, List.countP_singleton]
    by_cases h : (1 : ℚ) ≤ r <;> simp [h]
  · rfl

/-- Two-item dataset for the witness of claim C6: ratios `1/2` and `3/2`. -/
def dsW : List ImgInfo := [{ height := 1, width := 2 }, { height := 3, width := 2 }]

/-- Witness for claim C6: with the default threshold list `[1]` the two
items of `dsW` land in buckets 0 and 1, a ratio of 2 lands in bucket 1,
and the empty threshold list returns the plain infinite random sampler. -/
theorem build_sampler_bucketing_witness :
    build_sampler dsW 4 [1] = Sampler.infiniteGrouped 4 [0, 1]
    ∧ _quantize [2] [1] = [1]
    ∧ build_sampler dsW 4 [] = Sampler.infiniteRandom 4 true := by
  have h := build_sampler_bucketing dsW 4 [1] (by decide)
  refine ⟨?_, ?_, h.2.2⟩
  · rw [h.1]
    norm_num [dsW, List.countP_cons, List.countP_nil]
  · rw [h.2.1 2]
    norm_num

/-- Claim C10: `_quantize` sorts the threshold list before the binary
search, so its output is invariant under any permutation of `bins` — the
caller need not supply `aspect_grouping` pre-sorted. -/
theorem quantize_perm_invariant (xs bins bins2 : List ℚ)
    (h : bins.Perm bins2) :
    _quantize xs bins = _quantize xs bins2 := by
  rw [_quantize, _quantize]
  have hsort : List.insertionSort (· ≤ ·) bins = List.insertionSort (· ≤ ·) bins2 :=
    List.eq_of_perm_of_sorted
      (((List.perm_insertionSort _ bins).trans h).trans
        (List.perm_insertionSort _ bins2).symm)
      (List.sorted_insertionSort _ bins) (List.sorted_insertionSort _ bins2)
  rw [hsort]

/-- Witness for claim C10: the unsorted threshold list `[3, 1]` and its
sorted permutation `[1, 3]` quantize the ratio 2 identically. -/
theorem quantize_perm_invariant_witness :
    _quantize [2] [3, 1] = _quantize [2] [1, 3] :=
  quantize_perm_invariant [2] [3, 1] [1, 3] (by decide)

end Train
